import Mathlib

/-!
Shallow embedding of the query-understanding and ranking layer of the
LEGO search repository (src/app/search_processor.py and src/app/models.py),
together with proofs of the specification claims about it.

Python-specific behaviour is modelled explicitly:
* `str.strip` with Python's whitespace set (`pyStrip`);
* truthiness of optional fields (an empty string, the integer 0, the float
  0.0 and an empty list are all falsy in Python);
* `re.findall` returning the text of the capture group rather than the
  whole match when the pattern contains a group (`extract_year`);
* `list(set(...))`, whose enumeration order is unspecified and is a
  function of the element set only (`pySetList`);
* `list.sort(key=..., reverse=True)`, a stable descending sort, modelled
  by a stable insertion sort (`isortLe`): any two stable sorts under the
  same total preorder agree elementwise.
-/

namespace LegoSearch

/-! ### Python string primitives -/

/-- Python's whitespace characters, as stripped by `str.strip()`. -/
def pyWhitespace (c : Char) : Bool :=
  c = ' ' || c = '\t' || c = '\n' || c = '\x0b' || c = '\x0c' || c = '\r'

/-- `str.strip()` on a character list: drop whitespace from both ends. -/
def stripList (l : List Char) : List Char :=
  (l.dropWhile pyWhitespace).rdropWhile pyWhitespace

/-- Python `str.strip()`. -/
def pyStrip (s : String) : String := ⟨stripList s.data⟩

/-- Python `str.lower()` (ASCII fragment, which covers every string the
source compares). -/
def lowerStr (s : String) : String := ⟨s.data.map Char.toLower⟩

/-- Whether the first list is a prefix of the second. -/
def isPrefixB : List Char → List Char → Bool
  | [], _ => true
  | _ :: _, [] => false
  | x :: xs, y :: ys => (x = y) && isPrefixB xs ys

/-- Whether the first list occurs contiguously inside the second. -/
def isInfixB (n : List Char) : List Char → Bool
  | [] => n.isEmpty
  | y :: ys => isPrefixB n (y :: ys) || isInfixB n ys

/-- Python substring containment, `needle in hay` on `str`. -/
def strContains (needle hay : String) : Bool :=
  isInfixB needle.data hay.data

/-- A regex word character `\w` (ASCII fragment): letter, digit or underscore. -/
def wordChar (c : Char) : Bool := c.isAlphanum || c = '_'

/-- Truthiness of a Python `Optional[str]`: `None` and `""` are falsy. -/
def oStrTruthy : Option String → Bool
  | none => false
  | some s => !s.isEmpty

/-! ### Tokenisation: `re.findall(r'\b\w+\b', text)` = the maximal runs of
word characters, in order of appearance. -/

/-- Accumulator-based scanner for maximal `\w+` runs; `cur` holds the
characters of the run in progress, in reverse. -/
def tokensAux : List Char → List Char → List (List Char)
  | cur, [] => if cur.isEmpty then [] else [cur.reverse]
  | cur, c :: cs =>
    if wordChar c then tokensAux (c :: cur) cs
    else if cur.isEmpty then tokensAux [] cs
    else cur.reverse :: tokensAux [] cs

/-- The maximal word-character runs of a character list, left to right. -/
def tokens (l : List Char) : List (List Char) := tokensAux [] l

/-! ### Vocabulary tables (SmartSearchProcessor.__init__), in source
(dict insertion) order. -/

def theme_mappings : List (String × List String) :=
  [("star wars", ["star wars", "starwars", "sw", "starwar"]),
   ("city", ["city", "lego city", "town"]),
   ("technic", ["technic", "technical"]),
   ("friends", ["friends", "lego friends"]),
   ("ninjago", ["ninjago", "ninja go", "ninja"]),
   ("architecture", ["architecture", "architectural"]),
   ("creator", ["creator", "creative"]),
   ("duplo", ["duplo", "duplo blocks"]),
   ("bionicle", ["bionicle", "bionicles"]),
   ("marvel", ["marvel", "superheroes", "avengers"]),
   ("dc", ["dc", "batman", "superman"]),
   ("harry potter", ["harry potter", "hp", "wizarding world"]),
   ("minecraft", ["minecraft", "mine craft"]),
   ("jurassic world", ["jurassic world", "jurassic park", "dinosaurs"]),
   ("speed champions", ["speed champions", "cars", "racing"]),
   ("ideas", ["ideas", "lego ideas", "fan designed"]),
   ("expert", ["expert", "expert level", "adult"]),
   ("classic", ["classic", "basic", "traditional"])]

def time_keywords : List (String × List String) :=
  [("oldest", ["oldest", "first", "earliest", "original"]),
   ("newest", ["newest", "latest", "recent", "current"]),
   ("vintage", ["vintage", "retro", "classic", "old"]),
   ("modern", ["modern", "new", "contemporary", "recent"])]

def size_keywords : List (String × List String) :=
  [("largest", ["largest", "biggest", "huge", "massive"]),
   ("smallest", ["smallest", "tiny", "mini", "small"]),
   ("medium", ["medium", "average", "normal"])]

def price_keywords : List (String × List String) :=
  [("expensive", ["expensive", "costly", "premium", "high price"]),
   ("cheap", ["cheap", "inexpensive", "affordable", "low price"]),
   ("free", ["free", "no cost", "zero price"])]

/-- The nested loops shared by the modifier extractors: the first key (in
table order) one of whose aliases occurs as a substring of the lowered
query. -/
def firstKeyWithAliasIn (table : List (String × List String))
    (queryLower : String) : Option String :=
  (table.find? (fun kv => kv.2.any (fun v => strContains v queryLower))).map Prod.fst

/-! ### The fuzzy similarity collaborator (rapidfuzz), used only by
`extract_theme`'s fallback branch. -/

/-- Indel (insertion/deletion) edit distance between character lists, the
metric underlying rapidfuzz's ratio. -/
def indelDist : List Char → List Char → Nat
  | [], b => b.length
  | a, [] => a.length
  | x :: a, y :: b =>
    if x = y then indelDist a b
    else 1 + min (indelDist a (y :: b)) (indelDist (x :: a) b)
termination_by a b => a.length + b.length

/-- rapidfuzz `fuzz.ratio` on character lists: normalised indel similarity
on a 0-100 scale (100 for two empty strings). -/
def ratioScore (a b : List Char) : ℚ :=
  if a.length + b.length = 0 then 100
  else 100 * (1 - (indelDist a b : ℚ) / ((a.length : ℚ) + (b.length : ℚ)))

/-- The contiguous length-`n` windows of a list. -/
def windowsOf (l : List Char) (n : Nat) : List (List Char) :=
  (List.range (l.length - n + 1)).map (fun i => (l.drop i).take n)

/-- Model of the external rapidfuzz `fuzz.partial_ratio`: when either
input is empty the score is 100 if both are empty and 0 otherwise (the
empty-input rule of rapidfuzz); when both are non-empty, the best
`ratioScore` of the shorter string against a window of the longer. -/
def partial_ratio (s1 s2 : String) : ℚ :=
  let a := s1.data
  let b := s2.data
  if a.isEmpty || b.isEmpty then (if a.length = b.length then 100 else 0)
  else
    let sh := if a.length ≤ b.length then a else b
    let lo := if a.length ≤ b.length then b else a
    ((windowsOf lo sh.length).map (ratioScore sh)).foldl max 0

/-- Model of rapidfuzz `process.extractOne(query, choices, scorer)`: the
first choice attaining the maximal score, with its score; `none` only when
`choices` is empty. -/
def extractOne (query : String) (choices : List String) : Option (String × ℚ) :=
  choices.foldl
    (fun acc c =>
      let s := partial_ratio query c
      match acc with
      | none => some (c, s)
      | some best => if s > best.2 then some (c, s) else some best)
    none

/-! ### The Query Analyzer (SmartSearchProcessor.extract_*) -/

/-- `extract_theme`: substring match over the theme table first; otherwise
fuzzy fallback over the canonical theme names with threshold 70. -/
def extract_theme (query : String) : Option String :=
  let query_lower := lowerStr query
  match firstKeyWithAliasIn theme_mappings query_lower with
  | some t => some t
  | none =>
    match extractOne query_lower (theme_mappings.map Prod.fst) with
    | some best => if best.2 > 70 then some best.1 else none
    | none => none

def extract_time_modifier (query : String) : Option String :=
  firstKeyWithAliasIn time_keywords (lowerStr query)

def extract_size_modifier (query : String) : Option String :=
  firstKeyWithAliasIn size_keywords (lowerStr query)

def extract_price_modifier (query : String) : Option String :=
  firstKeyWithAliasIn price_keywords (lowerStr query)

/-- Whether the regex `\b(19|20)\d{2}\b` matches at the head of `l`, and
if so the value of its capture group, `19` or `20`. (The group covers only
the first two digits; `re.findall` returns the group, not the whole
match.) -/
def yearGroupHere : List Char → Option Nat
  | a :: b :: c :: d :: rest =>
    if ((a = '1' && b = '9') || (a = '2' && b = '0')) && c.isDigit && d.isDigit
        && (match rest with | [] => true | e :: _ => !wordChar e) then
      some (if a = '1' then 19 else 20)
    else none
  | _ => none

/-- Left-to-right scan for the first match of `\b(19|20)\d{2}\b`; `prev`
is the character before the current position (for the word boundary). -/
def scanYear : Option Char → List Char → Option Nat
  | _, [] => none
  | prev, c :: cs =>
    let boundary := match prev with | none => true | some p => !wordChar p
    match (if boundary then yearGroupHere (c :: cs) else none) with
    | some y => some y
    | none => scanYear (some c) cs

/-- `extract_year`: `re.findall(r'\b(19|20)\d{2}\b', query)` followed by
`int(matches[0])`. Because the pattern contains the group `(19|20)`,
`findall` returns the group text, so the integer produced is 19 or 20,
never the four-digit year. -/
def extract_year (query : String) : Option Int :=
  (scanYear none query.data).map (fun n => (n : Int))

/-- Whether the regex `\b(\d{3,6})\b` matches at the head of `l`: the run
of digits starting here must have length 3 to 6 and be followed by a word
boundary; the group is the whole run. -/
def setNumHere (l : List Char) : Option (List Char) :=
  let run := l.takeWhile Char.isDigit
  let rest := l.dropWhile Char.isDigit
  if 3 ≤ run.length && run.length ≤ 6
      && (match rest with | [] => true | e :: _ => !wordChar e) then
    some run
  else none

/-- Left-to-right scan for the first match of `\b(\d{3,6})\b`. -/
def scanSetNum : Option Char → List Char → Option (List Char)
  | _, [] => none
  | prev, c :: cs =>
    let boundary := match prev with | none => true | some p => !wordChar p
    match (if boundary then setNumHere (c :: cs) else none) with
    | some r => some r
    | none => scanSetNum (some c) cs

/-- `extract_set_number`: first `\b(\d{3,6})\b` match, kept as a string. -/
def extract_set_number (query : String) : Option String :=
  (scanSetNum none query.data).map (fun l => (⟨l⟩ : String))

/-- The stop-word set of `extract_keywords`. -/
def stop_words : List String :=
  ["the", "a", "an", "and", "or", "but", "in", "on", "at", "to", "for",
   "of", "with", "by", "set", "sets", "lego"]

/-- `extract_keywords`: lower-case, split into `\w+` tokens, keep tokens
that are not stop words and have length greater than 2; order and
duplicates preserved. -/
def extract_keywords (query : String) : List String :=
  let words := (tokens (lowerStr query).data).map (fun t => (⟨t⟩ : String))
  words.filter (fun w => !stop_words.contains w && decide (w.length > 2))

/-- The structured intent produced by `process_query` (the dict literal in
the source, one field per key). -/
structure ProcessedQuery where
  original_query : String
  theme : Option String
  time_modifier : Option String
  size_modifier : Option String
  price_modifier : Option String
  year : Option Int
  set_number : Option String
  keywords : List String
deriving DecidableEq

/-- `process_query`: each field extracted independently from the raw
query. Total by construction: no input makes it fail. -/
def process_query (query : String) : ProcessedQuery :=
  ⟨query, extract_theme query, extract_time_modifier query,
   extract_size_modifier query, extract_price_modifier query,
   extract_year query, extract_set_number query, extract_keywords query⟩

/-! ### A stable insertion sort

Python's `list.sort` is a stable sort; with `key=lambda x: x[1],
reverse=True` it is the stable descending sort by the key. Any two stable
sorts under the same total preorder produce the same list, so the stable
insertion sort below is an exact model. `insLe le x l` places `x` before
the first element `y` of `l` with `le x y`. -/

def insLe {α : Type} (le : α → α → Bool) (x : α) : List α → List α
  | [] => [x]
  | y :: ys => if le x y then x :: y :: ys else y :: insLe le x ys

def isortLe {α : Type} (le : α → α → Bool) : List α → List α
  | [] => []
  | x :: xs => insLe le x (isortLe le xs)

/-! ### The Query Expander (generate_search_queries) -/

/-- The candidate list in construction order, before deduplication: the
original query; if the theme is truthy, the theme and (if the time
modifier is also truthy) "time modifier, space, theme"; if the set number
is truthy, the set number; then every keyword. (The `if keywords:` guard
in the source is redundant: extending by an empty list adds nothing.) -/
def constructedQueries (pq : ProcessedQuery) : List String :=
  [pq.original_query]
    ++ (if oStrTruthy pq.theme then
          [pq.theme.getD ""]
            ++ (if oStrTruthy pq.time_modifier then
                  [pq.time_modifier.getD "" ++ " " ++ pq.theme.getD ""]
                else [])
        else [])
    ++ (if oStrTruthy pq.set_number then [pq.set_number.getD ""] else [])
    ++ pq.keywords

/-- First-occurrence deduplication (used to describe the element set of a
Python set built from a list). -/
def dedupFirstAux (seen : List String) : List String → List String
  | [] => []
  | x :: xs =>
    if x ∈ seen then dedupFirstAux seen xs
    else x :: dedupFirstAux (x :: seen) xs

def dedupKeepFirst (l : List String) : List String := dedupFirstAux [] l

/-- Lexicographic order on character lists by code point. -/
def charListLe : List Char → List Char → Bool
  | [], _ => true
  | _ :: _, [] => false
  | a :: as, b :: bs =>
    if a.val < b.val then true
    else if b.val < a.val then false
    else charListLe as bs

def strLe (a b : String) : Bool := charListLe a.data b.data

/-- Model of Python `list(set(xs))`. A `set` is an unordered hash table:
its enumeration order is unspecified, is not the insertion order, and
depends only on the set of elements. It is modelled here by the sorted
enumeration of the distinct elements — like the hash enumeration, a
function of the element set alone. Claims about the output's elements do
not depend on this choice of enumeration order. -/
def pySetList (xs : List String) : List String :=
  isortLe strLe (dedupKeepFirst xs)

/-- `generate_search_queries`: build the candidates in order, then
`list(set([q.strip() for q in queries if q.strip()]))` — strip each entry,
drop falsy (empty) ones, and collapse through an unordered set. -/
def generate_search_queries (pq : ProcessedQuery) : List String :=
  pySetList (((constructedQueries pq).map pyStrip).filter (fun s => !s.isEmpty))

/-- The candidate list as the SPEC's words order it (claim C2): the
construction order of `constructedQueries`, entries stripped, blank ones
removed, duplicates removed preserving the first occurrence. Defined for
comparison with `generate_search_queries`, whose set-based deduplication
does not follow this order. -/
def spec_expand_order (pq : ProcessedQuery) : List String :=
  dedupKeepFirst (((constructedQueries pq).map pyStrip).filter (fun s => !s.isEmpty))

/-! ### The record type (models.LegoSet) and its validation -/

/-- The validated record shape. The float `price` is modelled as a
rational. -/
structure LegoSet where
  set_id : String
  name : String
  theme : String
  piece_count : Int
  price : Option ℚ
  release_year : Option Int
  description : Option String
deriving DecidableEq

/-- Construction of a `LegoSet` with the pydantic validators of
models.py: `set_id`, `name` and `theme` must be non-blank (and are stored
stripped), `piece_count` non-negative, `price` (when supplied)
non-negative, `release_year` (when supplied) between 1950 and 2030. The
first violated rule raises; success returns the record. -/
def mkLegoSet (set_id name theme : String) (piece_count : Int)
    (price : Option ℚ) (release_year : Option Int)
    (description : Option String) : Except String LegoSet :=
  if (pyStrip set_id).isEmpty then .error "set_id cannot be empty"
  else if (pyStrip name).isEmpty then .error "name cannot be empty"
  else if (pyStrip theme).isEmpty then .error "theme cannot be empty"
  else if piece_count < 0 then .error "piece_count must be non-negative"
  else if price.any (fun p => decide (p < 0)) then
    .error "price must be non-negative"
  else if release_year.any (fun y => decide (y < 1950) || decide (y > 2030)) then
    .error "release_year must be between 1950 and 2030"
  else .ok ⟨pyStrip set_id, pyStrip name, pyStrip theme, piece_count,
            price, release_year, description⟩

/-! ### The Result Ranker (rank_results) -/

/-- The theme signal: +10 when the intent's theme is truthy and its
lowering is a substring of the record's lowered theme. -/
def themeScore (pq : ProcessedQuery) (r : LegoSet) : Int :=
  match pq.theme with
  | some t => if !t.isEmpty && strContains (lowerStr t) (lowerStr r.theme) then 10 else 0
  | none => 0

/-- The recency signal: guarded by truthiness of both the modifier and the
record's year (a year equal to 0 is falsy in Python); +5 for "oldest"
before 2000, +5 for "newest" after 2010. -/
def timeScore (pq : ProcessedQuery) (r : LegoSet) : Int :=
  match pq.time_modifier, r.release_year with
  | some tm, some y =>
    if !tm.isEmpty && decide (y ≠ 0) then
      if tm = "oldest" && decide (y < 2000) then 5
      else if tm = "newest" && decide (y > 2010) then 5
      else 0
    else 0
  | _, _ => 0

/-- The size signal: guarded by truthiness of the modifier and of
`piece_count` (0 is falsy); +3 for "largest" above 1000 pieces, +3 for
"smallest" below 100. -/
def sizeScore (pq : ProcessedQuery) (r : LegoSet) : Int :=
  match pq.size_modifier with
  | some sm =>
    if !sm.isEmpty && decide (r.piece_count ≠ 0) then
      if sm = "largest" && decide (r.piece_count > 1000) then 3
      else if sm = "smallest" && decide (r.piece_count < 100) then 3
      else 0
    else 0
  | none => 0

/-- The price signal: guarded by truthiness of the modifier and of the
price (`None` and `0.0` are both falsy); +3 for "expensive" above 100, +3
for "cheap" below 50. -/
def priceScore (pq : ProcessedQuery) (r : LegoSet) : Int :=
  match pq.price_modifier, r.price with
  | some pm, some p =>
    if !pm.isEmpty && decide (p ≠ 0) then
      if pm = "expensive" && decide (p > 100) then 3
      else if pm = "cheap" && decide (p < 50) then 3
      else 0
    else 0
  | _, _ => 0

/-- The keyword signal: for each keyword, +2 if its lowering occurs in the
lowered name, and +1 more if the description is truthy and contains it. -/
def keywordScore (pq : ProcessedQuery) (r : LegoSet) : Int :=
  (pq.keywords.map (fun kw =>
    (if strContains (lowerStr kw) (lowerStr r.name) then (2 : Int) else 0)
      + (match r.description with
         | some d =>
           if !d.isEmpty && strContains (lowerStr kw) (lowerStr d) then (1 : Int) else 0
         | none => 0))).sum

/-- The additive relevance score of `rank_results`, one summand per
signal. -/
def score (pq : ProcessedQuery) (r : LegoSet) : Int :=
  themeScore pq r + timeScore pq r + sizeScore pq r + priceScore pq r
    + keywordScore pq r

/-- The comparison of `scored_results.sort(key=lambda x: x[1],
reverse=True)`: `x` may stay before `y` exactly when `x`'s score is at
least `y`'s. -/
def scoreLe (x y : LegoSet × Int) : Bool := decide (y.2 ≤ x.2)

/-- `rank_results`: empty input returned as is; otherwise pair each record
with its score, sort stably by descending score, and keep the records. -/
def rank_results (results : List LegoSet) (pq : ProcessedQuery) : List LegoSet :=
  if results.isEmpty then results
  else
    (isortLe scoreLe (results.map (fun r => (r, score pq r)))).map Prod.fst

/-! ## Helper lemmas

### The stable insertion sort: permutation, sortedness, stability -/

theorem insLe_perm {α : Type} (le : α → α → Bool) (x : α) (l : List α) :
    (insLe le x l).Perm (x :: l) := by
  induction l with
  | nil => rfl
  | cons y ys ih =>
    simp only [insLe]
    split
    · exact List.Perm.refl _
    · exact (ih.cons y).trans (List.Perm.swap x y ys)

theorem isortLe_perm {α : Type} (le : α → α → Bool) (l : List α) :
    (isortLe le l).Perm l := by
  induction l with
  | nil => rfl
  | cons x xs ih => exact (insLe_perm le x (isortLe le xs)).trans (ih.cons x)

theorem mem_insLe {α : Type} {le : α → α → Bool} {x y : α} {l : List α} :
    y ∈ insLe le x l ↔ y = x ∨ y ∈ l := by
  rw [(insLe_perm le x l).mem_iff, List.mem_cons]

theorem sublist_insLe {α : Type} (le : α → α → Bool) (x : α) {c l : List α}
    (h : c.Sublist l) : c.Sublist (insLe le x l) := by
  induction l generalizing c with
  | nil =>
    simp only [List.sublist_nil] at h
    simp [h, insLe]
  | cons y ys ih =>
    simp only [insLe]
    split
    · exact h.cons x
    · cases h with
      | cons _ h' => exact (ih h').cons y
      | cons₂ _ h' => exact (ih h').cons₂ y

theorem cons_sublist_insLe {α : Type} {le : α → α → Bool} {x : α} {c l : List α}
    (h : c.Sublist l) (hx : ∀ y ∈ c, le x y = true) :
    (x :: c).Sublist (insLe le x l) := by
  induction l generalizing c with
  | nil =>
    simp only [List.sublist_nil] at h
    simp [h, insLe]
  | cons y ys ih =>
    simp only [insLe]
    split
    next hxy => exact h.cons₂ x
    next hxy =>
      cases h with
      | cons _ h' => exact (ih h' hx).cons y
      | cons₂ _ h' => exact absurd (hx y (List.mem_cons_self y _)) (by simpa using hxy)

theorem isortLe_stable {α : Type} {le : α → α → Bool} {c l : List α}
    (hc : c.Pairwise (fun a b => le a b = true)) (h : c.Sublist l) :
    c.Sublist (isortLe le l) := by
  induction l generalizing c with
  | nil =>
    simp only [List.sublist_nil] at h
    simp [h, isortLe]
  | cons x xs ih =>
    cases h with
    | cons _ h' => exact sublist_insLe le x (ih hc h')
    | cons₂ _ h' =>
      rw [List.pairwise_cons] at hc
      exact cons_sublist_insLe (ih hc.2 h') hc.1

theorem insLe_pairwise {α : Type} {le : α → α → Bool}
    (trans : ∀ a b c, le a b = true → le b c = true → le a c = true)
    (total : ∀ a b, le a b = true ∨ le b a = true)
    {x : α} {l : List α} (hl : l.Pairwise (fun a b => le a b = true)) :
    (insLe le x l).Pairwise (fun a b => le a b = true) := by
  induction l with
  | nil => simp [insLe]
  | cons y ys ih =>
    rw [List.pairwise_cons] at hl
    simp only [insLe]
    split
    next hxy =>
      refine List.pairwise_cons.mpr ⟨?_, List.pairwise_cons.mpr ⟨hl.1, hl.2⟩⟩
      intro z hz
      rcases List.mem_cons.mp hz with rfl | hz'
      · exact hxy
      · exact trans x y z hxy (hl.1 z hz')
    next hxy =>
      have hyx : le y x = true := (total x y).resolve_left (by simpa using hxy)
      refine List.pairwise_cons.mpr ⟨?_, ih hl.2⟩
      intro z hz
      rcases mem_insLe.mp hz with rfl | hz'
      · exact hyx
      · exact hl.1 z hz'

theorem isortLe_pairwise {α : Type} {le : α → α → Bool}
    (trans : ∀ a b c, le a b = true → le b c = true → le a c = true)
    (total : ∀ a b, le a b = true ∨ le b a = true) (l : List α) :
    (isortLe le l).Pairwise (fun a b => le a b = true) := by
  induction l with
  | nil => simp [isortLe]
  | cons x xs ih => exact insLe_pairwise trans total ih

/-! ### First-occurrence deduplication -/

theorem mem_dedupFirstAux {l seen : List String} {x : String} :
    x ∈ dedupFirstAux seen l ↔ x ∈ l ∧ x ∉ seen := by
  induction l generalizing seen with
  | nil => simp [dedupFirstAux]
  | cons y ys ih =>
    simp only [dedupFirstAux]
    split
    next hy =>
      rw [ih, List.mem_cons]
      constructor
      · exact fun h => ⟨Or.inr h.1, h.2⟩
      · rintro ⟨rfl | h, hs⟩
        · exact absurd hy hs
        · exact ⟨h, hs⟩
    next hy =>
      simp only [List.mem_cons, ih, List.mem_cons]
      constructor
      · rintro (rfl | ⟨h, hs⟩)
        · exact ⟨Or.inl rfl, hy⟩
        · exact ⟨Or.inr h, fun hx => hs (Or.inr hx)⟩
      · rintro ⟨rfl | h, hs⟩
        · exact Or.inl rfl
        · rcases eq_or_ne x y with rfl | hne
          · exact Or.inl rfl
          · exact Or.inr ⟨h, by simp [hne, hs]⟩

theorem nodup_dedupFirstAux (seen l : List String) :
    (dedupFirstAux seen l).Nodup := by
  induction l generalizing seen with
  | nil => simp [dedupFirstAux]
  | cons y ys ih =>
    simp only [dedupFirstAux]
    split
    · exact ih seen
    · refine List.nodup_cons.mpr ⟨?_, ih (y :: seen)⟩
      intro hy
      exact (mem_dedupFirstAux.mp hy).2 (List.mem_cons_self y seen)

theorem mem_dedupKeepFirst {l : List String} {x : String} :
    x ∈ dedupKeepFirst l ↔ x ∈ l := by
  rw [dedupKeepFirst, mem_dedupFirstAux]
  simp

theorem nodup_dedupKeepFirst (l : List String) : (dedupKeepFirst l).Nodup :=
  nodup_dedupFirstAux [] l

/-! ### Python strip: idempotence -/

theorem stripList_idem (l : List Char) : stripList (stripList l) = stripList l := by
  unfold stripList
  have h1 : (((l.dropWhile pyWhitespace).rdropWhile pyWhitespace).dropWhile pyWhitespace)
      = (l.dropWhile pyWhitespace).rdropWhile pyWhitespace := by
    rcases h : (l.dropWhile pyWhitespace).rdropWhile pyWhitespace with _ | ⟨c, cs⟩
    · simp
    · have hpre : (c :: cs).IsPrefix (l.dropWhile pyWhitespace) := by
        rw [← h]; exact List.rdropWhile_prefix _ _
      have hne : l.dropWhile pyWhitespace ≠ [] := by
        intro h0
        rw [h0] at hpre
        simp at hpre
      have hhead : (l.dropWhile pyWhitespace).head hne = c := by
        rw [← List.IsPrefix.head hpre (by simp)]
        simp
      have hc : pyWhitespace c = false := by
        rw [← hhead]
        exact List.head_dropWhile_not pyWhitespace l hne
      simp [List.dropWhile_cons, hc]
  rw [h1, List.rdropWhile_idempotent]

theorem pyStrip_idem (s : String) : pyStrip (pyStrip s) = pyStrip s := by
  simp [pyStrip, stripList_idem]

/-! ## The claims -/

/-- C1: the specification says `extract_year` returns the first four-digit
1900-2099 substring as an integer (e.g. 1999 for "sets from 1999"). The
code instead returns 19: `re.findall` with the group `(19|20)` in the
pattern returns the group text, and `int(matches[0])` is `int("19")`. The
claim is right about when a match exists, but the returned value is the
group, never the year — a slip in the code (its own docstring says
"Extract year from query" / "Look for 4-digit years"). -/
theorem C1_extract_year_returns_group :
    extract_year "sets from 1999" = some 19 ∧ (19 : Int) ≠ 1999 := by
  constructor
  · decide
  · decide

/-- C4 counterexample: a record whose price is exactly 0 with a "cheap"
intent. The claim says such a record receives the +3 cheap bonus (price is
set and 0 < 50); the code's guard `if ... and lego_set.price:` treats the
falsy float 0.0 like an absent price, so no bonus is granted — the whole
score is 0. -/
theorem C4_price_zero_counterexample :
    priceScore ⟨"q", none, none, none, some "cheap", none, none, []⟩
        ⟨"1", "n", "t", 10, some 0, none, none⟩ = 0 ∧
      score ⟨"q", none, none, none, some "cheap", none, none, []⟩
        ⟨"1", "n", "t", 10, some 0, none, none⟩ = 0 := by
  constructor
  · decide
  · decide

/-- C4 (amended): under a "cheap" intent, a record whose price is set,
nonzero and strictly below 50 receives the +3 cheap-price bonus; a price
of exactly 0 is excluded because Python truthiness conflates 0.0 with an
absent price. -/
theorem C4_cheap_bonus_amended (pq : ProcessedQuery) (r : LegoSet) (p : ℚ)
    (hpm : pq.price_modifier = some "cheap") (hp : r.price = some p)
    (hne : p ≠ 0) (hlt : p < 50) : priceScore pq r = 3 := by
  rw [priceScore, hpm, hp]
  have h100 : ¬ (100 : ℚ) < p := by linarith
  have hch : ("cheap" : String).isEmpty = false := by decide
  simp [hne, hlt, h100, hch]

/-- C4 witness: the amended bonus rule evaluated at a record priced 10. -/
theorem C4_cheap_bonus_witness :
    priceScore ⟨"q", none, none, none, some "cheap", none, none, []⟩
      ⟨"1", "n", "t", 10, some 10, none, none⟩ = 3 :=
  C4_cheap_bonus_amended _ _ 10 rfl rfl (by norm_num) (by norm_num)

/-- C5 counterexample: the input "retro" makes the Analyzer return the
recency modifier "vintage", which is neither "oldest" nor "newest" — the
vintage/modern near-synonym groups are separate table keys returned
verbatim, not folded into the two operative concepts. -/
theorem C5_vintage_counterexample :
    (process_query "retro").time_modifier = some "vintage" ∧
      ("vintage" : String) ≠ "oldest" ∧ ("vintage" : String) ≠ "newest" := by
  refine ⟨by decide, by decide, by decide⟩

/-- C5 (amended): every recency modifier the Analyzer returns is one of
the four table keys "oldest", "newest", "vintage", "modern" (the last two
are returned as themselves, and are ignored by the Ranker's recency
rule). -/
theorem C5_recency_values_amended (q m : String)
    (h : (process_query q).time_modifier = some m) :
    m = "oldest" ∨ m = "newest" ∨ m = "vintage" ∨ m = "modern" := by
  have h' : extract_time_modifier q = some m := h
  rw [extract_time_modifier, firstKeyWithAliasIn] at h'
  rcases Option.map_eq_some'.mp h' with ⟨kv, hfind, hfst⟩
  have hmem := List.mem_of_find?_eq_some hfind
  subst hfst
  simp only [time_keywords, List.mem_cons, List.not_mem_nil, or_false] at hmem
  rcases hmem with h1 | h1 | h1 | h1 <;> rw [h1] <;> simp

/-- C5 witness: the amended statement applied at the input "retro". -/
theorem C5_recency_values_witness :
    ("vintage" : String) = "oldest" ∨ ("vintage" : String) = "newest" ∨
      ("vintage" : String) = "vintage" ∨ ("vintage" : String) = "modern" :=
  C5_recency_values_amended "retro" "vintage" (by decide)

/-- C8: both size thresholds are strict: with modifier "largest" a record
of exactly 1000 pieces gets no size bonus, and with modifier "smallest" a
record of exactly 100 pieces gets no size bonus. -/
theorem C8_size_thresholds_strict (pq : ProcessedQuery) (r : LegoSet) :
    (pq.size_modifier = some "largest" → r.piece_count = 1000 →
        sizeScore pq r = 0) ∧
      (pq.size_modifier = some "smallest" → r.piece_count = 100 →
        sizeScore pq r = 0) := by
  constructor
  · intro hs hc
    rw [sizeScore, hs, hc]
    simp
  · intro hs hc
    rw [sizeScore, hs, hc]
    simp

/-- C10: purely numeric tokens are kept as keywords — every maximal
word-character token of the lowered input that is longer than 2 characters
and not a stop word appears in the keyword list, digits or not; in
particular the Analyzer's keyword list for "75192" is exactly
["75192"]. -/
theorem C10_numeric_tokens_kept :
    (∀ q w : String,
        w ∈ (tokens (lowerStr q).data).map (fun t => (⟨t⟩ : String)) →
        w ∉ stop_words → 2 < w.length → w ∈ extract_keywords q) ∧
      (process_query "75192").keywords = ["75192"] := by
  constructor
  · intro q w hw hstop hlen
    rw [extract_keywords]
    refine List.mem_filter.mpr ⟨hw, ?_⟩
    have hc : stop_words.contains w = false := by
      rcases hcon : stop_words.contains w with _ | _
      · rfl
      · exact absurd (List.elem_iff.mp hcon) hstop
    rw [hc]
    simp [hlen]
  · decide

/-- C6: the Analyzer is total (the model is a Lean function, defined on
every input string), and on the empty string every optional field is
absent and the keyword list is empty: no alias occurs in "", the fuzzy
fallback scores every theme 0 (the rapidfuzz empty-input rule) which is
below the threshold 70, no regex matches, and there are no tokens. -/
theorem C6_empty_query_all_absent :
    process_query "" = ⟨"", none, none, none, none, none, none, []⟩ := by
  decide

/-- C2 counterexample: two intents that construct the same candidate set
in different orders. The spec's claimed output (construction order with
first-occurrence deduplication) differs between them, but
`list(set(...))` is a function of the element set alone, so the code
returns the same list for both — the code cannot satisfy the claimed
ordering at both inputs. -/
theorem C2_order_counterexample :
    ¬ ((generate_search_queries ⟨"x", none, none, none, none, none, none,
          ["aaa", "bbb"]⟩ =
        spec_expand_order ⟨"x", none, none, none, none, none, none,
          ["aaa", "bbb"]⟩) ∧
       (generate_search_queries ⟨"x", none, none, none, none, none, none,
          ["bbb", "aaa"]⟩ =
        spec_expand_order ⟨"x", none, none, none, none, none, none,
          ["bbb", "aaa"]⟩)) := by
  decide

/-- C2 (amended): the Expander's output consists of exactly the distinct
non-blank trimmed strings among the constructed candidates (original
query; category and "recency category" when matched; identifier token;
keywords), each exactly once — as a permutation of the first-occurrence
deduplication — but in an unspecified order: the code deduplicates through
an unordered hash set, so construction order is not preserved. -/
theorem C2_elements_amended (pq : ProcessedQuery) :
    (generate_search_queries pq).Perm (spec_expand_order pq) :=
  isortLe_perm strLe _

/-- C7: the Expander's output has no duplicates (case-sensitive) and no
blank or whitespace-only entries — every element is non-empty and equal to
its own strip. -/
theorem C7_no_blanks_no_dups (pq : ProcessedQuery) :
    (generate_search_queries pq).Nodup ∧
      ∀ s ∈ generate_search_queries pq, s ≠ "" ∧ pyStrip s = s := by
  constructor
  · exact (List.Perm.nodup_iff (isortLe_perm strLe _)).mpr
      (nodup_dedupKeepFirst _)
  · intro s hs
    have hs1 : s ∈ dedupKeepFirst
        (((constructedQueries pq).map pyStrip).filter (fun t => !t.isEmpty)) :=
      (List.Perm.mem_iff (isortLe_perm strLe _)).mp hs
    have hs2 := mem_dedupKeepFirst.mp hs1
    rcases List.mem_filter.mp hs2 with ⟨hmap, hblank⟩
    have hne : s ≠ "" := by
      intro h0
      rw [h0] at hblank
      exact absurd hblank (by decide)
    rcases List.mem_map.mp hmap with ⟨q, _, rfl⟩
    exact ⟨hne, pyStrip_idem q⟩

theorem except_error_isOk {ε α : Type} (e : ε) :
    (Except.error e : Except ε α).isOk = false := rfl

theorem except_ok_isOk {ε α : Type} (a : α) :
    (Except.ok a : Except ε α).isOk = true := rfl

/-- C9: record construction succeeds exactly when the identifier, name
and category are not blank, the count is non-negative, any supplied price
is non-negative, and any supplied year lies in 1950-2030; otherwise the
first violated validator raises to the caller. -/
theorem C9_record_validation (set_id name theme : String) (piece_count : Int)
    (price : Option ℚ) (release_year : Option Int)
    (description : Option String) :
    (mkLegoSet set_id name theme piece_count price release_year
        description).isOk = true ↔
      (pyStrip set_id ≠ "" ∧ pyStrip name ≠ "" ∧ pyStrip theme ≠ "" ∧
        0 ≤ piece_count ∧ (∀ p ∈ price, 0 ≤ p) ∧
        ∀ y ∈ release_year, 1950 ≤ y ∧ y ≤ 2030) := by
  rw [mkLegoSet]
  split_ifs with h1 h2 h3 h4 h5 h6
  · simp only [except_error_isOk, Bool.false_eq_true, false_iff, not_and]
    intro ha
    exact absurd ((String.isEmpty_iff _).mp h1) ha
  · simp only [except_error_isOk, Bool.false_eq_true, false_iff, not_and]
    intro _ ha
    exact absurd ((String.isEmpty_iff _).mp h2) ha
  · simp only [except_error_isOk, Bool.false_eq_true, false_iff, not_and]
    intro _ _ ha
    exact absurd ((String.isEmpty_iff _).mp h3) ha
  · simp only [except_error_isOk, Bool.false_eq_true, false_iff]
    rintro ⟨-, -, -, hc, -, -⟩
    omega
  · simp only [except_error_isOk, Bool.false_eq_true, false_iff]
    rintro ⟨-, -, -, -, hp, -⟩
    rcases price with _ | p
    · exact absurd h5 (by simp)
    · simp only [Option.any_some, decide_eq_true_eq] at h5
      have := hp p rfl
      linarith
  · simp only [except_error_isOk, Bool.false_eq_true, false_iff]
    rintro ⟨-, -, -, -, -, hy⟩
    rcases release_year with _ | y
    · exact absurd h6 (by simp)
    · simp only [Option.any_some, Bool.or_eq_true, decide_eq_true_eq] at h6
      have := hy y rfl
      omega
  · simp only [except_ok_isOk, true_iff]
    refine ⟨?_, ?_, ?_, by omega, ?_, ?_⟩
    · intro h0
      exact h1 ((String.isEmpty_iff _).mpr h0)
    · intro h0
      exact h2 ((String.isEmpty_iff _).mpr h0)
    · intro h0
      exact h3 ((String.isEmpty_iff _).mpr h0)
    · intro p hp
      rw [Option.mem_def] at hp
      subst hp
      simp only [Option.any_some, decide_eq_true_eq] at h5
      linarith
    · intro y hy
      rw [Option.mem_def] at hy
      subst hy
      simp only [Option.any_some, Bool.or_eq_true, decide_eq_true_eq,
        not_or] at h6
      omega

/-- C9 witness: a fully valid record is constructed, and the validation
equivalence evaluated at it. -/
theorem C9_record_validation_witness :
    (mkLegoSet "75192" "Millennium Falcon" "Star Wars" 7541 (some 799)
        (some 2017) none).isOk = true :=
  (C9_record_validation "75192" "Millennium Falcon" "Star Wars" 7541
      (some 799) (some 2017) none).mpr
    (by refine ⟨by decide, by decide, by decide, by norm_num, ?_, ?_⟩ <;>
          rintro _ ⟨rfl⟩ <;> norm_num)

/-- C3: ranking returns a permutation of the input records (none added,
dropped or changed), pairwise sorted by descending score, and stably so:
two records with equal score occurring as a sublist of the input occur in
the same order as a sublist of the output. -/
theorem C3_rank_perm_sorted_stable (R : List LegoSet) (pq : ProcessedQuery) :
    (rank_results R pq).Perm R ∧
      (rank_results R pq).Pairwise (fun a b => score pq b ≤ score pq a) ∧
      ∀ a b : LegoSet, [a, b].Sublist R → score pq a = score pq b →
        [a, b].Sublist (rank_results R pq) := by
  by_cases h0 : R = []
  · subst h0
    refine ⟨by simp [rank_results], by simp [rank_results], ?_⟩
    intro a b hab _
    exact absurd hab (by simp)
  · have hne : R.isEmpty = false := by
      rcases hE : R.isEmpty with _ | _
      · rfl
      · exact absurd (List.isEmpty_iff.mp hE) h0
    have hrw : rank_results R pq =
        (isortLe scoreLe (R.map (fun r => (r, score pq r)))).map Prod.fst := by
      rw [rank_results, hne]
      simp
    have htrans : ∀ x y z : LegoSet × Int, scoreLe x y = true →
        scoreLe y z = true → scoreLe x z = true := by
      intro x y z hxy hyz
      simp only [scoreLe, decide_eq_true_eq] at *
      omega
    have htotal : ∀ x y : LegoSet × Int,
        scoreLe x y = true ∨ scoreLe y x = true := by
      intro x y
      simp only [scoreLe, decide_eq_true_eq]
      omega
    have hmemsnd : ∀ x : LegoSet × Int,
        x ∈ isortLe scoreLe (R.map (fun r => (r, score pq r))) →
        x.2 = score pq x.1 := by
      intro x hx
      have hx' := (isortLe_perm scoreLe _).mem_iff.mp hx
      rcases List.mem_map.mp hx' with ⟨r, _, rfl⟩
      rfl
    refine ⟨?_, ?_, ?_⟩
    · rw [hrw]
      have hperm := (isortLe_perm scoreLe
        (R.map (fun r => (r, score pq r)))).map Prod.fst
      have hid : (R.map (fun r => (r, score pq r))).map Prod.fst = R := by
        rw [List.map_map]
        exact List.map_id R
      rw [hid] at hperm
      exact hperm
    · rw [hrw, List.pairwise_map]
      refine List.Pairwise.imp_of_mem ?_
        (isortLe_pairwise htrans htotal (R.map (fun r => (r, score pq r))))
      intro x y hx hy hxy
      have hx2 := hmemsnd x hx
      have hy2 := hmemsnd y hy
      simp only [scoreLe, decide_eq_true_eq] at hxy
      rw [hx2, hy2] at hxy
      exact hxy
    · intro a b hab heq
      rw [hrw]
      have h1 : [(a, score pq a), (b, score pq b)].Sublist
          (R.map (fun r => (r, score pq r))) := by
        simpa using List.Sublist.map (fun r => (r, score pq r)) hab
      have hpw : [(a, score pq a), (b, score pq b)].Pairwise
          (fun x y => scoreLe x y = true) := by
        simp [scoreLe, heq]
      have h2 := isortLe_stable hpw h1
      simpa using List.Sublist.map Prod.fst h2

end LegoSearch
